import Mathlib

/-!
Verification of the incremental conversation summarizer
(`langmem.short_term.summarization.summarize_messages`).

The summarizer's implementation module is not part of the source tree here
(only its test suite `tests/short_term/test_summarization.py` is), so the
component is modelled from the natural-language specification, kept
consistent with the behaviour pinned down by the repository's tests.
-/

namespace Langmem

/-- Message roles: system / user (human) / assistant (ai) / tool. -/
inductive Role where
  | system
  | human
  | ai
  | tool
  deriving DecidableEq, Repr

/-- A single tool call carried by an assistant message: name and call id. -/
structure ToolCall where
  name : String
  callId : String
  deriving DecidableEq, Repr

/-- Modelled from the spec: a chat message — role, textual content, an opaque
optional identifier, an optional list of tool calls (assistant messages), and
an optional tool-call-linkage id (tool messages). -/
structure Msg where
  role : Role
  content : String
  id : Option String
  toolCalls : List ToolCall
  toolCallId : Option String
  deriving DecidableEq, Repr

/-- Modelled from the spec: the persisted summarization state — the running
summary text and the set of message ids already folded into it. -/
structure RunningSummary where
  summary : String
  summarizedMessageIds : Finset String
  deriving DecidableEq

/-- Modelled from the spec: the result of a summarization call — the message
sequence ready for model consumption and the updated state. -/
structure SummarizationResult where
  messages : List Msg
  runningSummary : Option RunningSummary
  deriving DecidableEq

instance {ε α : Type} [DecidableEq ε] [DecidableEq α] : DecidableEq (Except ε α) :=
  fun a b =>
    match a, b with
    | Except.ok x, Except.ok y =>
      if h : x = y then isTrue (by rw [h]) else isFalse (fun hc => h (Except.ok.injEq .. ▸ hc))
    | Except.error x, Except.error y =>
      if h : x = y then isTrue (by rw [h]) else isFalse (fun hc => h (Except.error.injEq .. ▸ hc))
    | Except.ok _, Except.error _ => isFalse (fun hc => Except.noConfusion hc)
    | Except.error _, Except.ok _ => isFalse (fun hc => Except.noConfusion hc)

/-- One run of the summarizer: the outcome (result or fatal error message)
together with the log of model invocations performed during the run.  An
error outcome with an empty log witnesses that the error was raised before
any model call. -/
structure SummarizeRun where
  outcome : Except String SummarizationResult
  modelCalls : List (List Msg)
  deriving DecidableEq

/-- The id of a message (validated messages always carry one). -/
def mid (m : Msg) : String := m.id.getD ""

/-- Whether some supplied message lacks an id. -/
def hasMissingId (messages : List Msg) : Bool :=
  messages.any (fun m => m.id.isNone)

/-- Split off the leading system message (if any) from the working sequence. -/
def sysSplit (messages : List Msg) : List Msg × List Msg :=
  match messages with
  | [] => ([], [])
  | m :: rest => if m.role = Role.system then ([m], rest) else ([], m :: rest)

/-- Ids already folded into the running summary. -/
def priorIds : Option RunningSummary → Finset String
  | none => ∅
  | some rs => rs.summarizedMessageIds

/-- The fixed label put in front of the summary when it is rendered as a
message. -/
def summaryLabel : String := "Summary of the conversation so far: "

/-- Modelled from the spec: the running summary rendered as a system-role
message with the fixed label. -/
def mkSummaryMessage (s : String) : Msg :=
  { role := Role.system, content := summaryLabel ++ s, id := none,
    toolCalls := [], toolCallId := none }

/-- The prior summary reconstructed as a message list (empty when absent). -/
def priorSummaryMsgs : Option RunningSummary → List Msg
  | none => []
  | some rs => [mkSummaryMessage rs.summary]

/-- Drop the maximal already-summarized leading run of the working sequence:
these are the re-supplied messages folded into the summary by earlier calls. -/
def dropSummarized (ids : Finset String) : List Msg → List Msg
  | [] => []
  | m :: rest =>
    if mid m ∈ ids then dropSummarized ids rest else m :: rest

/-- First message among the not-yet-summarized remainder whose id is already
in the summarized set (a caller bug), if any. -/
def findDupId (ids : Finset String) (l : List Msg) : Option String :=
  (l.find? (fun m => decide (mid m ∈ ids))).map mid

/-- The not-yet-summarized remainder of the working sequence. -/
def remOf (messages : List Msg) (rs : Option RunningSummary) : List Msg :=
  dropSummarized (priorIds rs) (sysSplit messages).2

/-- Token total of the sequence the call would have to return without
summarizing: leading system message, prior summary message and the
not-yet-summarized remainder. -/
def totalOf (messages : List Msg) (rs : Option RunningSummary)
    (tc : List Msg → Nat) : Nat :=
  tc ((sysSplit messages).1 ++ priorSummaryMsgs rs ++ remOf messages rs)

/-- Walk forward accumulating per-message token cost; keep the longest
leading run whose accumulated cost stays within the budget. -/
def takeBudget (tc : List Msg → Nat) (budget : Nat) : Nat → List Msg → List Msg
  | _, [] => []
  | acc, m :: rest =>
    if acc + tc [m] ≤ budget then m :: takeBudget tc budget (acc + tc [m]) rest
    else []

/-- Position of the last human message of a sequence, if any. -/
def lastHumanIdx : List Msg → Option Nat
  | [] => none
  | m :: rest =>
    match lastHumanIdx rest with
    | some k => some (k + 1)
    | none => if m.role = Role.human then some 0 else none

/-- Cap the candidate window strictly before the last human message of the
remainder: the last human message is never eligible for summarization. -/
def capWindow (rem w : List Msg) : List Msg :=
  match lastHumanIdx rem with
  | none => w
  | some k => w.take k

/-- Whether a tool call is resolved (answered by a tool message) within the
given window. -/
def resolvedIn (w : List Msg) (callId : String) : Bool :=
  w.any (fun m => decide (m.toolCallId = some callId))

/-- Whether the trailing message of a window must be pushed out of it: a
trailing human message, or a trailing assistant message with tool calls
unresolved within the window. -/
def dropTrailing (w : List Msg) (m : Msg) : Bool :=
  decide (m.role = Role.human) ||
    (decide (m.role = Role.ai) &&
      m.toolCalls.any (fun c => !(resolvedIn w c.callId)))

/-- Pull the window's right edge backward past trailing messages that may not
end a summarization window (on the reversed window). -/
def pullbackRev : List Msg → List Msg
  | [] => []
  | m :: rest =>
    if dropTrailing (m :: rest) m then pullbackRev rest else m :: rest

/-- Pull the window's right edge backward past trailing messages that may not
end a summarization window. -/
def pullback (w : List Msg) : List Msg := (pullbackRev w.reverse).reverse

/-- Modelled from the spec: the candidate summarization window — walk forward
through the not-yet-summarized remainder (budgeting from the prior summary
message's cost) while staying within `max_tokens`, cap it before the last
human message, and pull its right edge back past trailing messages that may
not end a window. -/
def windowOf (messages : List Msg) (rs : Option RunningSummary)
    (tc : List Msg → Nat) (max_tokens : Nat) : List Msg :=
  pullback (capWindow (remOf messages rs)
    (takeBudget tc max_tokens (tc (priorSummaryMsgs rs)) (remOf messages rs)))

/-- The retained tail: all input messages strictly after the window. -/
def tailOf (messages : List Msg) (rs : Option RunningSummary)
    (tc : List Msg → Nat) (max_tokens : Nat) : List Msg :=
  (remOf messages rs).drop (windowOf messages rs tc max_tokens).length

/-- Modelled from the spec: the instruction message appended to the window
when no prior summary exists. -/
def initialSummaryPrompt : Msg :=
  { role := Role.human, content := "Create a summary of the conversation above:",
    id := none, toolCalls := [], toolCallId := none }

/-- Modelled from the spec: the instruction message appended to the window
when a prior summary exists — it includes the prior summary text and asks the
model to extend it (the exact surrounding wording is not pinned down by the
spec). -/
def existingSummaryPrompt (s : String) : Msg :=
  { role := Role.human,
    content := "This is summary of the conversation to date: " ++ s ++
      "\n\nExtend this summary by taking into account the new messages above:",
    id := none, toolCalls := [], toolCallId := none }

/-- The trailing instruction message sent to the model after the window:
create a fresh summary when no prior summary exists, extend the prior one
otherwise. -/
def promptFor : Option RunningSummary → Msg
  | none => initialSummaryPrompt
  | some prior => existingSummaryPrompt prior.summary

/-- Modelled from the spec: `summarize_messages` — the incremental
summarizer.  The implementation module is absent from the source tree; this
definition follows the spec's contract (§4.1) and edge-case policy, resolving
the details the spec leaves open in the way the repository's test suite pins
them down: the forward walk budgets the window by `max_tokens` while
`max_summary_tokens` (and the leading system message's cost) are charged
against the retained tail, and duplicate-id detection fires for summarized
ids reappearing after the re-supplied already-summarized leading run. -/
def summarize_messages (messages : List Msg) (running_summary : Option RunningSummary)
    (model : List Msg → String) (tc : List Msg → Nat)
    (max_tokens max_summary_tokens : Nat) : SummarizeRun :=
  if hasMissingId messages then
    ⟨Except.error "Messages are required to have ID field", []⟩
  else if max_tokens ≤ max_summary_tokens then
    ⟨Except.error "max_summary_tokens must be less than max_tokens", []⟩
  else if (sysSplit messages).2.isEmpty then
    ⟨Except.ok ⟨messages, running_summary⟩, []⟩
  else
    match findDupId (priorIds running_summary) (remOf messages running_summary) with
    | some i =>
      ⟨Except.error ("Message with ID " ++ i ++ " has already been summarized"), []⟩
    | none =>
      if totalOf messages running_summary tc ≤ max_tokens then
        ⟨Except.ok ⟨(sysSplit messages).1 ++ priorSummaryMsgs running_summary ++
            remOf messages running_summary, running_summary⟩, []⟩
      else if max_tokens - max_summary_tokens - tc (sysSplit messages).1 <
          tc (tailOf messages running_summary tc max_tokens) then
        ⟨Except.error "Not enough tokens to keep the remaining messages within the budget", []⟩
      else
        match running_summary with
        | some prior =>
          if (windowOf messages running_summary tc max_tokens).isEmpty then
            ⟨Except.ok ⟨(sysSplit messages).1 ++ [mkSummaryMessage prior.summary] ++
                tailOf messages running_summary tc max_tokens, some prior⟩, []⟩
          else
            ⟨Except.ok ⟨(sysSplit messages).1 ++
                [mkSummaryMessage (model (windowOf messages running_summary tc max_tokens ++
                  [existingSummaryPrompt prior.summary]))] ++
                tailOf messages running_summary tc max_tokens,
              some ⟨model (windowOf messages running_summary tc max_tokens ++
                  [existingSummaryPrompt prior.summary]),
                prior.summarizedMessageIds ∪
                  ((windowOf messages running_summary tc max_tokens).map mid).toFinset⟩⟩,
             [windowOf messages running_summary tc max_tokens ++
               [existingSummaryPrompt prior.summary]]⟩
        | none =>
          ⟨Except.ok ⟨(sysSplit messages).1 ++
              [mkSummaryMessage (model (windowOf messages running_summary tc max_tokens ++
                [initialSummaryPrompt]))] ++
              tailOf messages running_summary tc max_tokens,
            some ⟨model (windowOf messages running_summary tc max_tokens ++
                [initialSummaryPrompt]),
              ((windowOf messages running_summary tc max_tokens).map mid).toFinset⟩⟩,
           [windowOf messages running_summary tc max_tokens ++ [initialSummaryPrompt]]⟩

/-- The `len` token counter used throughout the test suite: one token per
message. -/
def lenCounter : List Msg → Nat := fun l => l.length

/-- The ids recorded in a result's state (empty when the state is absent). -/
def resultIds (r : SummarizationResult) : Finset String :=
  match r.runningSummary with
  | none => ∅
  | some s => s.summarizedMessageIds

/-- Shorthand constructor for a human message. -/
def humanMsg (content msgId : String) : Msg :=
  { role := Role.human, content := content, id := some msgId,
    toolCalls := [], toolCallId := none }

/-- Shorthand constructor for an assistant message. -/
def aiMsg (content msgId : String) : Msg :=
  { role := Role.ai, content := content, id := some msgId,
    toolCalls := [], toolCallId := none }

/-- Shorthand constructor for a system message. -/
def sysMsg (content msgId : String) : Msg :=
  { role := Role.system, content := content, id := some msgId,
    toolCalls := [], toolCallId := none }

/-- Shorthand constructor for an assistant message with tool calls. -/
def aiToolMsg (content msgId : String) (calls : List ToolCall) : Msg :=
  { role := Role.ai, content := content, id := some msgId,
    toolCalls := calls, toolCallId := none }

/-- Shorthand constructor for a tool-result message. -/
def toolMsg (content callId msgId : String) : Msg :=
  { role := Role.tool, content := content, id := some msgId,
    toolCalls := [], toolCallId := some callId }

/-- The nine-message conversation of the spec's concrete scenario (three
human/assistant pairs followed by three trailing messages). -/
def demoMessages : List Msg :=
  [humanMsg "Message 1" "1", aiMsg "Response 1" "2",
   humanMsg "Message 2" "3", aiMsg "Response 2" "4",
   humanMsg "Message 3" "5", aiMsg "Response 3" "6",
   humanMsg "Message 4" "7", aiMsg "Response 4" "8",
   humanMsg "Latest message" "9"]

/-- The scenario's mock model: always answers with the fixed summary text. -/
def demoModel : List Msg → String :=
  fun _ => "This is a summary of the conversation."

/-- The cut-point rule exactly as the claim words it: walk forward
accumulating token cost until adding the next message would exceed
`max_tokens - max_summary_tokens`; the window is everything strictly before
that point. -/
def claimWindowRule (tc : List Msg → Nat) (max_tokens max_summary_tokens : Nat)
    (working : List Msg) : List Msg :=
  takeBudget tc (max_tokens - max_summary_tokens) 0 working

/-- The last human message of a sequence, if any. -/
def lastHuman : List Msg → Option Msg
  | [] => none
  | m :: rest =>
    match lastHuman rest with
    | some h => some h
    | none => if m.role = Role.human then some m else none

/-- The state produced by the scenario's first summarization: the mock
summary text with the first six message ids folded in. -/
def demoSummary : RunningSummary :=
  ⟨"This is a summary of the conversation.",
    ({"1", "2", "3", "4", "5", "6"} : Finset String)⟩

/-- Ten single-token assistant messages: more than fits any window plus
retained tail under `max_tokens = 5`, `max_summary_tokens = 1`. -/
def overflowMessages : List Msg :=
  (List.range 10).map (fun i => aiMsg ("Message " ++ toString i) (toString i))

/-- A two-message conversation, the first message of which has already been
folded into a running summary. -/
def tinyMessages : List Msg := [humanMsg "a" "1", humanMsg "b" "2"]

/-- A running summary covering the first message of `tinyMessages`. -/
def tinyState : RunningSummary := ⟨"S", ({"1"} : Finset String)⟩

/-- The three-message under-budget conversation of
`test_no_summarization_needed`. -/
def smallMessages : List Msg :=
  [humanMsg "Message 1" "1", aiMsg "Response 1" "2", humanMsg "Message 2" "3"]

/-- The five-message conversation of `test_last_human_message_not_summarized`:
the trailing human/assistant pair must stay out of the summarized window. -/
def tailGuardMessages : List Msg :=
  [aiMsg "Response 1" "1", humanMsg "Message 2" "2", aiMsg "Response 2" "3",
   humanMsg "Message 3" "4", aiMsg "Response 3" "5"]

/- ## Structural lemmas about the summarizer's pieces -/

theorem sysSplit_append (messages : List Msg) :
    (sysSplit messages).1 ++ (sysSplit messages).2 = messages := by
  unfold sysSplit
  match messages with
  | [] => rfl
  | m :: rest =>
    by_cases h : m.role = Role.system <;> simp [h]

theorem sysSplit_length_le (messages : List Msg) :
    (sysSplit messages).1.length ≤ 1 := by
  unfold sysSplit
  match messages with
  | [] => simp
  | m :: rest =>
    by_cases h : m.role = Role.system <;> simp [h]

theorem dropSummarized_empty (l : List Msg) : dropSummarized ∅ l = l := by
  induction l with
  | nil => rfl
  | cons m rest ih => simp [dropSummarized, ih]

theorem dropSummarized_exists_append (ids : Finset String) (l : List Msg) :
    ∃ p, l = p ++ dropSummarized ids l ∧ ∀ m ∈ p, mid m ∈ ids := by
  induction l with
  | nil => exact ⟨[], rfl, by simp⟩
  | cons m rest ih =>
    by_cases h : mid m ∈ ids
    · obtain ⟨p, hp, hmem⟩ := ih
      refine ⟨m :: p, ?_, ?_⟩
      · simp [dropSummarized, h, ← hp]
      · intro x hx
        rcases List.mem_cons.mp hx with hx | hx
        · exact hx ▸ h
        · exact hmem x hx
    · exact ⟨[], by simp [dropSummarized, h], by simp⟩

theorem findDupId_none_iff (ids : Finset String) (l : List Msg) :
    findDupId ids l = none ↔ ∀ m ∈ l, mid m ∉ ids := by
  unfold findDupId
  rw [Option.map_eq_none', List.find?_eq_none]
  constructor
  · intro h m hm
    have := h m hm
    simpa using this
  · intro h m hm
    simpa using h m hm

theorem takeBudget_exists_append (tc : List Msg → Nat) (b : Nat) :
    ∀ (acc : Nat) (l : List Msg), ∃ t, l = takeBudget tc b acc l ++ t := by
  intro acc l
  induction l generalizing acc with
  | nil => exact ⟨[], rfl⟩
  | cons m rest ih =>
    by_cases h : acc + tc [m] ≤ b
    · obtain ⟨t, ht⟩ := ih (acc + tc [m])
      exact ⟨t, by simp [takeBudget, h]; exact ht⟩
    · exact ⟨m :: rest, by simp [takeBudget, h]⟩

theorem pullbackRev_exists_append (l : List Msg) :
    ∃ p, l = p ++ pullbackRev l := by
  induction l with
  | nil => exact ⟨[], rfl⟩
  | cons m rest ih =>
    by_cases h : dropTrailing (m :: rest) m = true
    · obtain ⟨p, hp⟩ := ih
      exact ⟨m :: p, by simp [pullbackRev, h, ← hp]⟩
    · exact ⟨[], by simp [pullbackRev, h]⟩

theorem pullback_exists_append (w : List Msg) :
    ∃ t, w = pullback w ++ t := by
  obtain ⟨p, hp⟩ := pullbackRev_exists_append w.reverse
  refine ⟨p.reverse, ?_⟩
  unfold pullback
  calc w = w.reverse.reverse := by rw [List.reverse_reverse]
  _ = (p ++ pullbackRev w.reverse).reverse := by rw [← hp]
  _ = (pullbackRev w.reverse).reverse ++ p.reverse := by rw [List.reverse_append]

theorem capWindow_exists_append (rem w : List Msg) :
    ∃ t, w = capWindow rem w ++ t := by
  unfold capWindow
  match lastHumanIdx rem with
  | none => exact ⟨[], by simp⟩
  | some k => exact ⟨w.drop k, by rw [List.take_append_drop]⟩

theorem windowOf_exists_append (messages : List Msg) (rs : Option RunningSummary)
    (tc : List Msg → Nat) (max_tokens : Nat) :
    ∃ t, remOf messages rs = windowOf messages rs tc max_tokens ++ t := by
  obtain ⟨t₁, h₁⟩ := takeBudget_exists_append tc max_tokens (tc (priorSummaryMsgs rs))
    (remOf messages rs)
  obtain ⟨t₂, h₂⟩ := capWindow_exists_append (remOf messages rs)
    (takeBudget tc max_tokens (tc (priorSummaryMsgs rs)) (remOf messages rs))
  obtain ⟨t₃, h₃⟩ := pullback_exists_append (capWindow (remOf messages rs)
    (takeBudget tc max_tokens (tc (priorSummaryMsgs rs)) (remOf messages rs)))
  refine ⟨t₃ ++ t₂ ++ t₁, ?_⟩
  have hw : windowOf messages rs tc max_tokens = pullback (capWindow (remOf messages rs)
      (takeBudget tc max_tokens (tc (priorSummaryMsgs rs)) (remOf messages rs))) := rfl
  calc remOf messages rs
      = takeBudget tc max_tokens (tc (priorSummaryMsgs rs)) (remOf messages rs) ++ t₁ := h₁
    _ = (capWindow (remOf messages rs) (takeBudget tc max_tokens (tc (priorSummaryMsgs rs))
          (remOf messages rs)) ++ t₂) ++ t₁ := by rw [← h₂]
    _ = ((pullback (capWindow (remOf messages rs) (takeBudget tc max_tokens
          (tc (priorSummaryMsgs rs)) (remOf messages rs))) ++ t₃) ++ t₂) ++ t₁ := by rw [← h₃]
    _ = windowOf messages rs tc max_tokens ++ (t₃ ++ t₂ ++ t₁) := by
          rw [hw]; simp [List.append_assoc]

theorem window_append_tail (messages : List Msg) (rs : Option RunningSummary)
    (tc : List Msg → Nat) (max_tokens : Nat) :
    windowOf messages rs tc max_tokens ++ tailOf messages rs tc max_tokens =
      remOf messages rs := by
  obtain ⟨t, ht⟩ := windowOf_exists_append messages rs tc max_tokens
  unfold tailOf
  rw [ht]
  congr 1
  rw [List.drop_left]

/- ## Branch characterizations of `summarize_messages` -/

theorem summarize_eq_missing (messages : List Msg) (rs : Option RunningSummary)
    (model : List Msg → String) (tc : List Msg → Nat) (maxT maxS : Nat)
    (h : hasMissingId messages = true) :
    summarize_messages messages rs model tc maxT maxS =
      ⟨Except.error "Messages are required to have ID field", []⟩ := by
  simp only [summarize_messages, h, if_true]

theorem summarize_eq_badBudget (messages : List Msg) (rs : Option RunningSummary)
    (model : List Msg → String) (tc : List Msg → Nat) (maxT maxS : Nat)
    (h1 : hasMissingId messages = false) (h2 : maxT ≤ maxS) :
    summarize_messages messages rs model tc maxT maxS =
      ⟨Except.error "max_summary_tokens must be less than max_tokens", []⟩ := by
  simp only [summarize_messages, h1, h2, Bool.false_eq_true, if_false, if_true]

theorem summarize_eq_emptyWorking (messages : List Msg) (rs : Option RunningSummary)
    (model : List Msg → String) (tc : List Msg → Nat) (maxT maxS : Nat)
    (h1 : hasMissingId messages = false) (h2 : ¬ maxT ≤ maxS)
    (h3 : (sysSplit messages).2.isEmpty = true) :
    summarize_messages messages rs model tc maxT maxS =
      ⟨Except.ok ⟨messages, rs⟩, []⟩ := by
  simp only [summarize_messages, h1, h2, h3, Bool.false_eq_true, if_false, if_true]

theorem summarize_eq_dup (messages : List Msg) (rs : Option RunningSummary)
    (model : List Msg → String) (tc : List Msg → Nat) (maxT maxS : Nat) (i : String)
    (h1 : hasMissingId messages = false) (h2 : ¬ maxT ≤ maxS)
    (h3 : (sysSplit messages).2.isEmpty = false)
    (h4 : findDupId (priorIds rs) (remOf messages rs) = some i) :
    summarize_messages messages rs model tc maxT maxS =
      ⟨Except.error ("Message with ID " ++ i ++ " has already been summarized"), []⟩ := by
  simp only [summarize_messages, h1, h2, h3, h4, Bool.false_eq_true, if_false]

theorem summarize_eq_noSummarize (messages : List Msg) (rs : Option RunningSummary)
    (model : List Msg → String) (tc : List Msg → Nat) (maxT maxS : Nat)
    (h1 : hasMissingId messages = false) (h2 : ¬ maxT ≤ maxS)
    (h3 : (sysSplit messages).2.isEmpty = false)
    (h4 : findDupId (priorIds rs) (remOf messages rs) = none)
    (h5 : totalOf messages rs tc ≤ maxT) :
    summarize_messages messages rs model tc maxT maxS =
      ⟨Except.ok ⟨(sysSplit messages).1 ++ priorSummaryMsgs rs ++ remOf messages rs, rs⟩,
        []⟩ := by
  simp only [summarize_messages, h1, h2, h3, h4, h5, Bool.false_eq_true, if_false, if_true]

theorem summarize_eq_unfit (messages : List Msg) (rs : Option RunningSummary)
    (model : List Msg → String) (tc : List Msg → Nat) (maxT maxS : Nat)
    (h1 : hasMissingId messages = false) (h2 : ¬ maxT ≤ maxS)
    (h3 : (sysSplit messages).2.isEmpty = false)
    (h4 : findDupId (priorIds rs) (remOf messages rs) = none)
    (h5 : ¬ totalOf messages rs tc ≤ maxT)
    (h6 : maxT - maxS - tc (sysSplit messages).1 < tc (tailOf messages rs tc maxT)) :
    summarize_messages messages rs model tc maxT maxS =
      ⟨Except.error "Not enough tokens to keep the remaining messages within the budget",
        []⟩ := by
  simp only [summarize_messages, h1, h2, h3, h4, h5, h6, Bool.false_eq_true, if_false, if_true]

theorem summarize_eq_skip (messages : List Msg) (prior : RunningSummary)
    (model : List Msg → String) (tc : List Msg → Nat) (maxT maxS : Nat)
    (h1 : hasMissingId messages = false) (h2 : ¬ maxT ≤ maxS)
    (h3 : (sysSplit messages).2.isEmpty = false)
    (h4 : findDupId (priorIds (some prior)) (remOf messages (some prior)) = none)
    (h5 : ¬ totalOf messages (some prior) tc ≤ maxT)
    (h6 : ¬ maxT - maxS - tc (sysSplit messages).1 <
      tc (tailOf messages (some prior) tc maxT))
    (h7 : (windowOf messages (some prior) tc maxT).isEmpty = true) :
    summarize_messages messages (some prior) model tc maxT maxS =
      ⟨Except.ok ⟨(sysSplit messages).1 ++ [mkSummaryMessage prior.summary] ++
          tailOf messages (some prior) tc maxT, some prior⟩, []⟩ := by
  simp only [summarize_messages, h1, h2, h3, h4, h5, h6, h7, Bool.false_eq_true, if_false,
    if_true]

theorem summarize_eq_extend (messages : List Msg) (prior : RunningSummary)
    (model : List Msg → String) (tc : List Msg → Nat) (maxT maxS : Nat)
    (h1 : hasMissingId messages = false) (h2 : ¬ maxT ≤ maxS)
    (h3 : (sysSplit messages).2.isEmpty = false)
    (h4 : findDupId (priorIds (some prior)) (remOf messages (some prior)) = none)
    (h5 : ¬ totalOf messages (some prior) tc ≤ maxT)
    (h6 : ¬ maxT - maxS - tc (sysSplit messages).1 <
      tc (tailOf messages (some prior) tc maxT))
    (h7 : (windowOf messages (some prior) tc maxT).isEmpty = false) :
    summarize_messages messages (some prior) model tc maxT maxS =
      ⟨Except.ok ⟨(sysSplit messages).1 ++
          [mkSummaryMessage (model (windowOf messages (some prior) tc maxT ++
            [existingSummaryPrompt prior.summary]))] ++
          tailOf messages (some prior) tc maxT,
        some ⟨model (windowOf messages (some prior) tc maxT ++
            [existingSummaryPrompt prior.summary]),
          prior.summarizedMessageIds ∪
            ((windowOf messages (some prior) tc maxT).map mid).toFinset⟩⟩,
       [windowOf messages (some prior) tc maxT ++
         [existingSummaryPrompt prior.summary]]⟩ := by
  simp only [summarize_messages, h1, h2, h3, h4, h5, h6, h7, Bool.false_eq_true, if_false,
    if_true]

theorem summarize_eq_initial (messages : List Msg)
    (model : List Msg → String) (tc : List Msg → Nat) (maxT maxS : Nat)
    (h1 : hasMissingId messages = false) (h2 : ¬ maxT ≤ maxS)
    (h3 : (sysSplit messages).2.isEmpty = false)
    (h4 : findDupId (priorIds none) (remOf messages none) = none)
    (h5 : ¬ totalOf messages none tc ≤ maxT)
    (h6 : ¬ maxT - maxS - tc (sysSplit messages).1 < tc (tailOf messages none tc maxT)) :
    summarize_messages messages none model tc maxT maxS =
      ⟨Except.ok ⟨(sysSplit messages).1 ++
          [mkSummaryMessage (model (windowOf messages none tc maxT ++
            [initialSummaryPrompt]))] ++
          tailOf messages none tc maxT,
        some ⟨model (windowOf messages none tc maxT ++ [initialSummaryPrompt]),
          ((windowOf messages none tc maxT).map mid).toFinset⟩⟩,
       [windowOf messages none tc maxT ++ [initialSummaryPrompt]]⟩ := by
  simp only [summarize_messages, h1, h2, h3, h4, h5, h6, Bool.false_eq_true, if_false,
    if_true]

/-- Inversion on a successful run: the validations passed and the result was
produced by one of the three non-error exits (empty working sequence, total
within budget, or summarization). -/
theorem summarize_ok_cases (messages : List Msg) (rs : Option RunningSummary)
    (model : List Msg → String) (tc : List Msg → Nat) (maxT maxS : Nat)
    (r : SummarizationResult)
    (h : (summarize_messages messages rs model tc maxT maxS).outcome = Except.ok r) :
    hasMissingId messages = false ∧ ¬ maxT ≤ maxS ∧
    (((sysSplit messages).2.isEmpty = true ∧ r = ⟨messages, rs⟩) ∨
     ((sysSplit messages).2.isEmpty = false ∧
      findDupId (priorIds rs) (remOf messages rs) = none ∧
      ((totalOf messages rs tc ≤ maxT ∧
        r = ⟨(sysSplit messages).1 ++ priorSummaryMsgs rs ++ remOf messages rs, rs⟩) ∨
       (¬ totalOf messages rs tc ≤ maxT ∧
        ¬ maxT - maxS - tc (sysSplit messages).1 < tc (tailOf messages rs tc maxT) ∧
        ∃ s, r.messages = (sysSplit messages).1 ++ [mkSummaryMessage s] ++
            tailOf messages rs tc maxT ∧
          r.runningSummary = some ⟨s, priorIds rs ∪
            ((windowOf messages rs tc maxT).map mid).toFinset⟩)))) := by
  by_cases h1 : hasMissingId messages = true
  · rw [summarize_eq_missing messages rs model tc maxT maxS h1] at h
    simp at h
  have h1 : hasMissingId messages = false := Bool.not_eq_true _ ▸ h1
  by_cases h2 : maxT ≤ maxS
  · rw [summarize_eq_badBudget messages rs model tc maxT maxS h1 h2] at h
    simp at h
  refine ⟨h1, h2, ?_⟩
  by_cases h3 : (sysSplit messages).2.isEmpty = true
  · left
    rw [summarize_eq_emptyWorking messages rs model tc maxT maxS h1 h2 h3] at h
    exact ⟨h3, by simpa using h.symm⟩
  have h3 : (sysSplit messages).2.isEmpty = false := Bool.not_eq_true _ ▸ h3
  right
  cases h4 : findDupId (priorIds rs) (remOf messages rs) with
  | some i =>
    rw [summarize_eq_dup messages rs model tc maxT maxS i h1 h2 h3 h4] at h
    simp at h
  | none =>
    refine ⟨h3, rfl, ?_⟩
    by_cases h5 : totalOf messages rs tc ≤ maxT
    · left
      rw [summarize_eq_noSummarize messages rs model tc maxT maxS h1 h2 h3 h4 h5] at h
      exact ⟨h5, by simpa using h.symm⟩
    right
    by_cases h6 : maxT - maxS - tc (sysSplit messages).1 <
        tc (tailOf messages rs tc maxT)
    · rw [summarize_eq_unfit messages rs model tc maxT maxS h1 h2 h3 h4 h5 h6] at h
      simp at h
    refine ⟨h5, h6, ?_⟩
    match rs with
    | none =>
      rw [summarize_eq_initial messages model tc maxT maxS h1 h2 h3 h4 h5 h6] at h
      refine ⟨model (windowOf messages none tc maxT ++ [initialSummaryPrompt]), ?_, ?_⟩
      · have := h.symm
        simp only [Except.ok.injEq] at this
        rw [this]
      · have := h.symm
        simp only [Except.ok.injEq] at this
        rw [this]
        simp [priorIds]
    | some prior =>
      by_cases h7 : (windowOf messages (some prior) tc maxT).isEmpty = true
      · rw [summarize_eq_skip messages prior model tc maxT maxS h1 h2 h3 h4 h5 h6 h7] at h
        refine ⟨prior.summary, ?_, ?_⟩
        · have := h.symm
          simp only [Except.ok.injEq] at this
          rw [this]
        · have := h.symm
          simp only [Except.ok.injEq] at this
          rw [this]
          have hw : windowOf messages (some prior) tc maxT = [] :=
            List.isEmpty_iff.mp h7
          simp [priorIds, hw]
      · have h7 : (windowOf messages (some prior) tc maxT).isEmpty = false :=
          Bool.not_eq_true _ ▸ h7
        rw [summarize_eq_extend messages prior model tc maxT maxS h1 h2 h3 h4 h5 h6 h7] at h
        refine ⟨model (windowOf messages (some prior) tc maxT ++
            [existingSummaryPrompt prior.summary]), ?_, ?_⟩
        · have := h.symm
          simp only [Except.ok.injEq] at this
          rw [this]
        · have := h.symm
          simp only [Except.ok.injEq] at this
          rw [this]
          simp [priorIds]

theorem pullback_length_le (w : List Msg) : (pullback w).length ≤ w.length := by
  obtain ⟨t, ht⟩ := pullback_exists_append w
  have hlen := congrArg List.length ht
  rw [List.length_append] at hlen
  omega

theorem capWindow_length_le (rem w : List Msg) (k : Nat)
    (hk : lastHumanIdx rem = some k) : (capWindow rem w).length ≤ k := by
  unfold capWindow
  rw [hk]
  simp [List.length_take]

theorem windowOf_length_le (messages : List Msg) (rs : Option RunningSummary)
    (tc : List Msg → Nat) (maxT : Nat) (k : Nat)
    (hk : lastHumanIdx (remOf messages rs) = some k) :
    (windowOf messages rs tc maxT).length ≤ k := by
  unfold windowOf
  exact Nat.le_trans (pullback_length_le _) (capWindow_length_le _ _ k hk)

theorem windowOf_take (messages : List Msg) (rs : Option RunningSummary)
    (tc : List Msg → Nat) (maxT : Nat) :
    windowOf messages rs tc maxT =
      (remOf messages rs).take (windowOf messages rs tc maxT).length := by
  obtain ⟨t, ht⟩ := windowOf_exists_append messages rs tc maxT
  rw [ht, List.take_left]

theorem lastHuman_none_iff_idx (l : List Msg) :
    lastHuman l = none ↔ lastHumanIdx l = none := by
  induction l with
  | nil => simp [lastHuman, lastHumanIdx]
  | cons m rest ih =>
    unfold lastHuman lastHumanIdx
    cases hrest : lastHuman rest with
    | some h =>
      have : lastHumanIdx rest ≠ none := fun hc => by
        rw [← ih] at hc
        rw [hrest] at hc
        cases hc
      obtain ⟨k, hk⟩ := Option.ne_none_iff_exists'.mp this
      simp [hk]
    | none =>
      have : lastHumanIdx rest = none := ih.mp hrest
      rw [this]
      by_cases hr : m.role = Role.human <;> simp [hr]

theorem lastHuman_none_no_human (l : List Msg) (h : lastHuman l = none) :
    ∀ m ∈ l, m.role ≠ Role.human := by
  induction l with
  | nil => intro m hm; cases hm
  | cons m₀ rest ih =>
    unfold lastHuman at h
    cases hrest : lastHuman rest with
    | some hh => rw [hrest] at h; cases h
    | none =>
      rw [hrest] at h
      intro m hm
      rcases List.mem_cons.mp hm with hm | hm
      · subst hm
        intro hr
        rw [if_pos hr] at h
        cases h
      · exact ih hrest m hm

theorem lastHuman_isHuman (l : List Msg) (h : Msg) (hl : lastHuman l = some h) :
    h.role = Role.human := by
  induction l with
  | nil => cases hl
  | cons m rest ih =>
    unfold lastHuman at hl
    cases hrest : lastHuman rest with
    | some hh =>
      rw [hrest] at hl
      injection hl with hl
      subst hl
      exact ih hrest
    | none =>
      rw [hrest] at hl
      by_cases hr : m.role = Role.human
      · rw [if_pos hr] at hl
        injection hl with hl
        exact hl ▸ hr
      · rw [if_neg hr] at hl
        cases hl

theorem lastHuman_mem (l : List Msg) (h : Msg) (hl : lastHuman l = some h) :
    h ∈ l := by
  induction l with
  | nil => cases hl
  | cons m rest ih =>
    unfold lastHuman at hl
    cases hrest : lastHuman rest with
    | some hh =>
      rw [hrest] at hl
      injection hl with hl
      subst hl
      exact List.mem_cons_of_mem m (ih hrest)
    | none =>
      rw [hrest] at hl
      by_cases hr : m.role = Role.human
      · rw [if_pos hr] at hl
        injection hl with hl
        exact hl ▸ List.mem_cons_self m rest
      · rw [if_neg hr] at hl
        cases hl

theorem lastHuman_cons (m : Msg) (rest : List Msg) :
    lastHuman (m :: rest) =
      match lastHuman rest with
      | some h => some h
      | none => if m.role = Role.human then some m else none := rfl

theorem lastHuman_append (a b : List Msg) :
    lastHuman (a ++ b) =
      match lastHuman b with
      | some h => some h
      | none => lastHuman a := by
  induction a with
  | nil =>
    simp only [List.nil_append]
    cases hb : lastHuman b <;> simp [lastHuman]
  | cons m rest ih =>
    rw [List.cons_append]
    cases hb : lastHuman b with
    | some h =>
      have ih2 : lastHuman (rest ++ b) = some h := by rw [ih, hb]
      show lastHuman (m :: (rest ++ b)) = some h
      rw [lastHuman_cons, ih2]
    | none =>
      have ih2 : lastHuman (rest ++ b) = lastHuman rest := by rw [ih, hb]
      show lastHuman (m :: (rest ++ b)) = lastHuman (m :: rest)
      rw [lastHuman_cons, ih2, lastHuman_cons]

theorem lastHuman_some_idx (l : List Msg) (h : Msg) (hl : lastHuman l = some h) :
    ∃ k, lastHumanIdx l = some k ∧ ∃ hlt : k < l.length, l.get ⟨k, hlt⟩ = h := by
  induction l with
  | nil => cases hl
  | cons m rest ih =>
    unfold lastHuman at hl
    cases hrest : lastHuman rest with
    | some hh =>
      rw [hrest] at hl
      injection hl with hl
      subst hl
      obtain ⟨k, hk, hlt, hget⟩ := ih hrest
      refine ⟨k + 1, ?_, by simpa using hlt, by simpa using hget⟩
      unfold lastHumanIdx
      rw [hk]
    | none =>
      rw [hrest] at hl
      by_cases hr : m.role = Role.human
      · rw [if_pos hr] at hl
        injection hl with hl
        refine ⟨0, ?_, by simp, by simpa using hl⟩
        unfold lastHumanIdx
        rw [(lastHuman_none_iff_idx rest).mp hrest]
        simp [hr]
      · rw [if_neg hr] at hl
        cases hl

theorem get_mem_drop (l : List Msg) (n k : Nat) (hk : k < l.length) (hnk : n ≤ k) :
    l.get ⟨k, hk⟩ ∈ l.drop n := by
  have h1 : k - n < (l.drop n).length := by
    rw [List.length_drop]
    omega
  have h2 : (l.drop n).get ⟨k - n, h1⟩ = l.get ⟨k, hk⟩ := by
    simp only [List.get_eq_getElem, List.getElem_drop]
    congr 1
    omega
  rw [← h2]
  exact List.get_mem _ _ h1

theorem lastHuman_not_in_window (messages : List Msg) (rs : Option RunningSummary)
    (tc : List Msg → Nat) (maxT : Nat)
    (hnodup : (messages.map mid).Nodup)
    (hm : Msg) (hlh : lastHuman messages = some hm) :
    mid hm ∉ (windowOf messages rs tc maxT).map mid := by
  intro hcon
  obtain ⟨m', hm'w, hmid⟩ := List.mem_map.mp hcon
  have hw_take := windowOf_take messages rs tc maxT
  have hm'rem : m' ∈ remOf messages rs := by
    rw [hw_take] at hm'w
    exact List.mem_of_mem_take hm'w
  obtain ⟨p', hp', _⟩ := dropSummarized_exists_append (priorIds rs) (sysSplit messages).2
  have hrem : remOf messages rs = dropSummarized (priorIds rs) (sysSplit messages).2 := rfl
  have hmsg : messages = ((sysSplit messages).1 ++ p') ++ remOf messages rs := by
    rw [← hrem] at hp'
    calc messages = (sysSplit messages).1 ++ (sysSplit messages).2 :=
          (sysSplit_append messages).symm
      _ = (sysSplit messages).1 ++ (p' ++ remOf messages rs) := by rw [← hp']
      _ = ((sysSplit messages).1 ++ p') ++ remOf messages rs := by
            rw [List.append_assoc]
  have hm'msgs : m' ∈ messages := by
    rw [hmsg]
    exact List.mem_append_right _ hm'rem
  have hhm_msgs : hm ∈ messages := lastHuman_mem messages hm hlh
  have heq : m' = hm := List.inj_on_of_nodup_map hnodup hm'msgs hhm_msgs hmid
  subst heq
  cases hlhr : lastHuman (remOf messages rs) with
  | none =>
    exact lastHuman_none_no_human _ hlhr m' hm'rem
      (lastHuman_isHuman messages m' hlh)
  | some hr =>
    have hlm : lastHuman messages = some hr := by
      rw [hmsg, lastHuman_append, hlhr]
    have hmr : m' = hr := by
      rw [hlh] at hlm
      injection hlm
    subst hmr
    obtain ⟨k, hk, hlt, hget⟩ := lastHuman_some_idx _ _ hlhr
    have hlen : (windowOf messages rs tc maxT).length ≤ k :=
      windowOf_length_le messages rs tc maxT k hk
    have hmem_take : m' ∈ (remOf messages rs).take
        (windowOf messages rs tc maxT).length := by
      rw [← hw_take]
      exact hm'w
    have hmem_drop : m' ∈ (remOf messages rs).drop
        (windowOf messages rs tc maxT).length := by
      rw [← hget]
      exact get_mem_drop _ _ k hlt hlen
    have hnodup_rem : (remOf messages rs).Nodup := by
      have h1 : (messages.map mid).Nodup := hnodup
      rw [hmsg, List.map_append] at h1
      exact (List.Nodup.of_append_right h1).of_map
    have hnd2 : ((remOf messages rs).take (windowOf messages rs tc maxT).length ++
        (remOf messages rs).drop (windowOf messages rs tc maxT).length).Nodup := by
      rw [List.take_append_drop]
      exact hnodup_rem
    exact List.disjoint_of_nodup_append hnd2 hmem_take hmem_drop

theorem resolvedIn_reverse (w : List Msg) (c : String) :
    resolvedIn w.reverse c = resolvedIn w c := by
  unfold resolvedIn
  exact List.any_reverse ..

theorem dropTrailing_reverse (w : List Msg) (m : Msg) :
    dropTrailing w.reverse m = dropTrailing w m := by
  unfold dropTrailing
  simp only [resolvedIn_reverse]

theorem pullbackRev_head_ok (l : List Msg) :
    ∀ m rest, pullbackRev l = m :: rest → dropTrailing (m :: rest) m = false := by
  induction l with
  | nil => intro m rest hc; cases hc
  | cons a l ih =>
    intro m rest hc
    by_cases hd : dropTrailing (a :: l) a = true
    · rw [pullbackRev, if_pos hd] at hc
      exact ih m rest hc
    · rw [pullbackRev, if_neg hd] at hc
      injection hc with h1 h2
      subst h1
      subst h2
      exact Bool.not_eq_true _ ▸ hd

theorem windowOf_last_ok (messages : List Msg) (rs : Option RunningSummary)
    (tc : List Msg → Nat) (maxT : Nat) :
    ∀ m, (windowOf messages rs tc maxT).getLast? = some m →
      dropTrailing (windowOf messages rs tc maxT) m = false := by
  intro m hlast
  have hw : windowOf messages rs tc maxT =
      (pullbackRev (capWindow (remOf messages rs)
        (takeBudget tc maxT (tc (priorSummaryMsgs rs)) (remOf messages rs))).reverse).reverse :=
    rfl
  rw [hw, List.getLast?_reverse] at hlast
  cases hx : pullbackRev (capWindow (remOf messages rs)
      (takeBudget tc maxT (tc (priorSummaryMsgs rs)) (remOf messages rs))).reverse with
  | nil => rw [hx] at hlast; cases hlast
  | cons m₀ rest =>
    rw [hx] at hlast
    injection hlast with hm₀
    have hok := pullbackRev_head_ok _ m₀ rest hx
    rw [hw, hx, dropTrailing_reverse, ← hm₀]
    exact hok

theorem dropSummarized_append (S : Finset String) (a b : List Msg)
    (ha : ∀ m ∈ a, mid m ∈ S) (hb : ∀ m ∈ b, mid m ∉ S) :
    dropSummarized S (a ++ b) = b := by
  induction a with
  | nil =>
    simp only [List.nil_append]
    cases b with
    | nil => rfl
    | cons x xs =>
      unfold dropSummarized
      rw [if_neg (hb x (List.mem_cons_self x xs))]
  | cons m a ih =>
    rw [List.cons_append]
    unfold dropSummarized
    rw [if_pos (ha m (List.mem_cons_self m a))]
    exact ih (fun x hx => ha x (List.mem_cons_of_mem m hx))

theorem resultIds_mk (ms : List Msg) (rs : Option RunningSummary) :
    resultIds ⟨ms, rs⟩ = priorIds rs := by
  cases rs <;> rfl

theorem tail_suffix_of_input (messages : List Msg) (rs : Option RunningSummary)
    (tc : List Msg → Nat) (maxT : Nat) :
    ∃ p, messages = p ++ tailOf messages rs tc maxT := by
  obtain ⟨p', hp', _⟩ := dropSummarized_exists_append (priorIds rs) (sysSplit messages).2
  refine ⟨(sysSplit messages).1 ++ p' ++ windowOf messages rs tc maxT, ?_⟩
  have hrem : remOf messages rs = dropSummarized (priorIds rs) (sysSplit messages).2 := rfl
  calc messages = (sysSplit messages).1 ++ (sysSplit messages).2 :=
        (sysSplit_append messages).symm
    _ = (sysSplit messages).1 ++ (p' ++ remOf messages rs) := by rw [← hrem] at hp'; rw [← hp']
    _ = (sysSplit messages).1 ++ (p' ++ (windowOf messages rs tc maxT ++
          tailOf messages rs tc maxT)) := by rw [window_append_tail]
    _ = (sysSplit messages).1 ++ p' ++ windowOf messages rs tc maxT ++
          tailOf messages rs tc maxT := by simp [List.append_assoc]

/- ## Claim theorems -/

/-- C10: for every input in which some message lacks an id,
`summarize_messages` raises the fatal error "Messages are required to have ID
field", before any model call (the call log is empty). -/
theorem missing_id_fatal (messages : List Msg) (rs : Option RunningSummary)
    (model : List Msg → String) (tc : List Msg → Nat) (maxT maxS : Nat)
    (m : Msg) (hm : m ∈ messages) (hid : m.id = none) :
    summarize_messages messages rs model tc maxT maxS =
      ⟨Except.error "Messages are required to have ID field", []⟩ := by
  apply summarize_eq_missing
  unfold hasMissingId
  rw [List.any_eq_true]
  exact ⟨m, hm, by simp [hid]⟩

/-- Witness for C10: the two-message input of `test_missing_message_ids`
(second message has no id) raises the id-validation error. -/
theorem missing_id_fatal_witness :
    summarize_messages
      [humanMsg "Message 1" "1",
       { role := Role.ai, content := "Response", id := none,
         toolCalls := [], toolCallId := none }]
      none demoModel lenCounter 10 1 =
      ⟨Except.error "Messages are required to have ID field", []⟩ :=
  missing_id_fatal _ none demoModel lenCounter 10 1
    { role := Role.ai, content := "Response", id := none,
      toolCalls := [], toolCallId := none }
    (by decide) rfl

/-- C9: an infeasible token budget is a fatal error, not silent truncation —
`max_tokens ≤ max_summary_tokens` is rejected up front, and when (after
reserving `max_summary_tokens` and the leading system message's token cost)
the retained tail does not fit in the remaining budget, the run fails before
any model call. -/
theorem infeasible_budget_fatal :
    (∀ (messages : List Msg) (rs : Option RunningSummary) (model : List Msg → String)
      (tc : List Msg → Nat) (maxT maxS : Nat),
      hasMissingId messages = false → maxT ≤ maxS →
      summarize_messages messages rs model tc maxT maxS =
        ⟨Except.error "max_summary_tokens must be less than max_tokens", []⟩) ∧
    (∀ (messages : List Msg) (rs : Option RunningSummary) (model : List Msg → String)
      (tc : List Msg → Nat) (maxT maxS : Nat),
      hasMissingId messages = false → ¬ maxT ≤ maxS →
      (sysSplit messages).2.isEmpty = false →
      findDupId (priorIds rs) (remOf messages rs) = none →
      ¬ totalOf messages rs tc ≤ maxT →
      maxT - maxS - tc (sysSplit messages).1 < tc (tailOf messages rs tc maxT) →
      summarize_messages messages rs model tc maxT maxS =
        ⟨Except.error "Not enough tokens to keep the remaining messages within the budget",
          []⟩) :=
  ⟨fun messages rs model tc maxT maxS h1 h2 =>
    summarize_eq_badBudget messages rs model tc maxT maxS h1 h2,
   fun messages rs model tc maxT maxS h1 h2 h3 h4 h5 h6 =>
    summarize_eq_unfit messages rs model tc maxT maxS h1 h2 h3 h4 h5 h6⟩

/-- Witness for C9: the ten-message input of `test_summarize_too_many_tokens`
(`max_tokens = 5`, `max_summary_tokens = 1`) fails with the budget error, and
`max_tokens = 1 ≤ 2 = max_summary_tokens` fails up front. -/
theorem infeasible_budget_fatal_witness :
    summarize_messages overflowMessages none demoModel lenCounter 5 1 =
      ⟨Except.error "Not enough tokens to keep the remaining messages within the budget",
        []⟩ ∧
    summarize_messages smallMessages none demoModel lenCounter 1 2 =
      ⟨Except.error "max_summary_tokens must be less than max_tokens", []⟩ :=
  ⟨infeasible_budget_fatal.2 overflowMessages none demoModel lenCounter 5 1
      (by decide) (by decide) (by decide) (by decide) (by decide) (by decide),
   infeasible_budget_fatal.1 smallMessages none demoModel lenCounter 1 2
      (by decide) (by decide)⟩

/-- Counterexample to C8 as stated: re-supplying the full history after a
summarization is the component's normal usage — the input then contains
messages whose ids are already in `summarized_message_ids` (the already
summarized leading run), yet the call succeeds instead of raising. -/
theorem resupplied_prefix_no_error :
    ("1" ∈ priorIds (some demoSummary)) ∧
    (∃ m ∈ demoMessages, mid m = "1") ∧
    (summarize_messages demoMessages (some demoSummary) demoModel lenCounter 6 1) =
      ⟨Except.ok ⟨[mkSummaryMessage "This is a summary of the conversation.",
          humanMsg "Message 4" "7", aiMsg "Response 4" "8",
          humanMsg "Latest message" "9"], some demoSummary⟩, []⟩ := by
  decide

/-- C8 (amended): an id already in `summarized_message_ids` reappearing among
the input's non-summarized portion — after the re-supplied already-summarized
leading run — is a fatal error whose message contains "has already been
summarized", raised before any model call, regardless of where in that
portion it appears. -/
theorem duplicate_id_fatal (messages : List Msg) (rs : Option RunningSummary)
    (model : List Msg → String) (tc : List Msg → Nat) (maxT maxS : Nat)
    (h1 : hasMissingId messages = false) (h2 : ¬ maxT ≤ maxS)
    (h3 : (sysSplit messages).2.isEmpty = false)
    (h4 : ∃ m ∈ remOf messages rs, mid m ∈ priorIds rs) :
    ∃ i, summarize_messages messages rs model tc maxT maxS =
      ⟨Except.error ("Message with ID " ++ i ++ " has already been summarized"), []⟩ := by
  have hne : findDupId (priorIds rs) (remOf messages rs) ≠ none := by
    intro hnone
    obtain ⟨m, hm, hmem⟩ := h4
    exact (findDupId_none_iff (priorIds rs) (remOf messages rs)).mp hnone m hm hmem
  obtain ⟨i, hi⟩ := Option.ne_none_iff_exists'.mp hne
  exact ⟨i, summarize_eq_dup messages rs model tc maxT maxS i h1 h2 h3 hi⟩

/-- Witness for C8 (amended): the duplicate-id input of
`test_duplicate_message_ids` — id "1" reappears at the end of the new batch —
raises the duplicate error. -/
theorem duplicate_id_fatal_witness :
    ∃ i, summarize_messages
      [humanMsg "Message 1" "1", aiMsg "Response 1" "2", humanMsg "Message 2" "3",
       aiMsg "Response 2" "4", humanMsg "Message 3" "1"]
      (some ⟨"Summary", ({"1", "2"} : Finset String)⟩) demoModel lenCounter 5 1 =
      ⟨Except.error ("Message with ID " ++ i ++ " has already been summarized"), []⟩ :=
  duplicate_id_fatal
    [humanMsg "Message 1" "1", aiMsg "Response 1" "2", humanMsg "Message 2" "3",
     aiMsg "Response 2" "4", humanMsg "Message 3" "1"]
    (some ⟨"Summary", ({"1", "2"} : Finset String)⟩) demoModel lenCounter 5 1
    (by decide) (by decide) (by decide) (by decide)

/-- Counterexample to C1 as stated: when a running summary exists, an
under-budget input is not returned unchanged — the output is the summary
message followed by the non-summarized messages, so the identity part of the
claim fails (the state is still unchanged). -/
theorem under_budget_not_identity_with_prior :
    lenCounter tinyMessages ≤ 10 ∧
    (summarize_messages tinyMessages (some tinyState) demoModel lenCounter 10 1) =
      ⟨Except.ok ⟨[mkSummaryMessage "S", humanMsg "b" "2"], some tinyState⟩, []⟩ ∧
    [mkSummaryMessage "S", humanMsg "b" "2"] ≠ tinyMessages := by
  decide

/-- C1 (amended): with no running summary, for every message sequence whose
total token count (per the supplied token counter) is at most `max_tokens`,
`summarize_messages` returns the input messages unchanged with an unchanged
(absent) running summary and performs no model invocation. -/
theorem under_budget_identity (messages : List Msg) (model : List Msg → String)
    (tc : List Msg → Nat) (maxT maxS : Nat)
    (h1 : hasMissingId messages = false) (h2 : ¬ maxT ≤ maxS)
    (h3 : tc messages ≤ maxT) :
    summarize_messages messages none model tc maxT maxS =
      ⟨Except.ok ⟨messages, none⟩, []⟩ := by
  by_cases hw : (sysSplit messages).2.isEmpty = true
  · exact summarize_eq_emptyWorking messages none model tc maxT maxS h1 h2 hw
  · have hw : (sysSplit messages).2.isEmpty = false := Bool.not_eq_true _ ▸ hw
    have hrem : remOf messages none = (sysSplit messages).2 := by
      unfold remOf
      simp [priorIds, dropSummarized_empty]
    have h4 : findDupId (priorIds none) (remOf messages none) = none := by
      rw [findDupId_none_iff]
      intro m _ hmem
      simp [priorIds] at hmem
    have htot : totalOf messages none tc = tc messages := by
      unfold totalOf
      rw [hrem]
      simp only [priorSummaryMsgs, List.append_nil]
      rw [sysSplit_append]
    rw [summarize_eq_noSummarize messages none model tc maxT maxS h1 h2 hw h4
      (htot ▸ h3)]
    rw [hrem]
    simp only [priorSummaryMsgs, List.append_nil]
    rw [sysSplit_append]

/-- Witness for C1 (amended): the three-message under-budget input of
`test_no_summarization_needed` is returned unchanged with no model call. -/
theorem under_budget_identity_witness :
    summarize_messages smallMessages none demoModel lenCounter 10 1 =
      ⟨Except.ok ⟨smallMessages, none⟩, []⟩ :=
  under_budget_identity smallMessages demoModel lenCounter 10 1
    (by decide) (by decide) (by decide)

/-- Counterexample to C2 as stated: on the nine-single-token-message scenario
with `max_tokens = 6` and `max_summary_tokens = 1`, the claimed walk — stop
before exceeding `max_tokens - max_summary_tokens` — selects only the first 5
messages, while the summarizer's window is the first 6. -/
theorem claim_cut_rule_refuted :
    claimWindowRule lenCounter 6 1 demoMessages = demoMessages.take 5 ∧
    windowOf demoMessages none lenCounter 6 = demoMessages.take 6 ∧
    demoMessages.take 5 ≠ demoMessages.take 6 := by
  decide

/-- C6: after a first summarization with the `len` token counter (and at
least one token reserved for the summary), calling `summarize_messages` again
with the same full history and the returned state performs no new model call
(the run is idempotent on the state: it returns the very same result with an
empty call log), and the surfaced summary message is the previously computed
summary text prefixed verbatim with the fixed label. -/
theorem reinvocation_idempotent (messages : List Msg) (model : List Msg → String)
    (maxT maxS : Nat) (r : SummarizationResult) (s : RunningSummary)
    (hnodup : (messages.map mid).Nodup)
    (hmaxS : 1 ≤ maxS)
    (hout : (summarize_messages messages none model lenCounter maxT maxS).outcome =
      Except.ok r)
    (hs : r.runningSummary = some s) :
    summarize_messages messages (some s) model lenCounter maxT maxS =
      ⟨Except.ok r, []⟩ ∧
    r.messages = (sysSplit messages).1 ++ [mkSummaryMessage s.summary] ++
      tailOf messages none lenCounter maxT ∧
    (mkSummaryMessage s.summary).content = summaryLabel ++ s.summary := by
  obtain ⟨h1, h2, hcases⟩ :=
    summarize_ok_cases messages none model lenCounter maxT maxS r hout
  rcases hcases with ⟨hemp, hr⟩ | ⟨h3, h4, hcase⟩
  · rw [hr] at hs
    exact Option.noConfusion hs
  rcases hcase with ⟨hle, hr⟩ | ⟨h5, h6, s', hmsgs, hrs⟩
  · rw [hr] at hs
    exact Option.noConfusion hs
  rw [hs] at hrs
  injection hrs with hrs
  have hsum : s.summary = s' := by rw [hrs]
  have hids : s.summarizedMessageIds =
      ((windowOf messages none lenCounter maxT).map mid).toFinset := by
    rw [hrs]
    simp [priorIds]
  have hremfull : remOf messages none = (sysSplit messages).2 := by
    unfold remOf
    simp [priorIds, dropSummarized_empty]
  have hWT : windowOf messages none lenCounter maxT ++
      tailOf messages none lenCounter maxT = (sysSplit messages).2 := by
    rw [window_append_tail, hremfull]
  have hnodup_working : ((sysSplit messages).2.map mid).Nodup := by
    have hthis := hnodup
    rw [← sysSplit_append messages, List.map_append] at hthis
    exact List.Nodup.of_append_right hthis
  have hnd : ((windowOf messages none lenCounter maxT).map mid ++
      (tailOf messages none lenCounter maxT).map mid).Nodup := by
    rw [← List.map_append, hWT]
    exact hnodup_working
  have hdisj : ∀ m ∈ tailOf messages none lenCounter maxT,
      mid m ∉ s.summarizedMessageIds := by
    intro m hm hcon
    rw [hids] at hcon
    exact List.disjoint_of_nodup_append hnd (List.mem_toFinset.mp hcon)
      (List.mem_map_of_mem mid hm)
  have hWmem : ∀ m ∈ windowOf messages none lenCounter maxT,
      mid m ∈ s.summarizedMessageIds := by
    intro m hm
    rw [hids]
    exact List.mem_toFinset.mpr (List.mem_map_of_mem mid hm)
  have hrem2 : remOf messages (some s) = tailOf messages none lenCounter maxT := by
    show dropSummarized s.summarizedMessageIds (sysSplit messages).2 =
      tailOf messages none lenCounter maxT
    rw [← hWT]
    exact dropSummarized_append _ _ _ hWmem hdisj
  have hdup2 : findDupId (priorIds (some s)) (remOf messages (some s)) = none := by
    rw [findDupId_none_iff, hrem2]
    exact hdisj
  have hTlen : lenCounter (tailOf messages none lenCounter maxT) ≤
      maxT - maxS - lenCounter (sysSplit messages).1 := Nat.le_of_not_lt h6
  have hsys_le := sysSplit_length_le messages
  have hmaxS_lt : maxS < maxT := Nat.not_le.mp h2
  have htot2 : totalOf messages (some s) lenCounter ≤ maxT := by
    unfold totalOf
    rw [hrem2]
    simp only [lenCounter, priorSummaryMsgs, List.length_append, List.length_cons,
      List.length_nil] at hTlen ⊢
    omega
  have hres := summarize_eq_noSummarize messages (some s) model lenCounter maxT maxS
    h1 h2 h3 hdup2 htot2
  rw [hrem2] at hres
  have hrr : r = ⟨(sysSplit messages).1 ++ [mkSummaryMessage s.summary] ++
      tailOf messages none lenCounter maxT, some s⟩ := by
    cases r with
    | mk rm rr =>
      simp only at hmsgs hs
      rw [hmsgs, hs, hsum]
  refine ⟨?_, ?_, rfl⟩
  · rw [hres, hrr]
    rfl
  · rw [hrr]

/-- Witness for C6: re-running the nine-message scenario with the state of
its first summarization returns the same four messages and state with no
model call. -/
theorem reinvocation_idempotent_witness :
    summarize_messages demoMessages (some demoSummary) demoModel lenCounter 6 1 =
      ⟨Except.ok ⟨[mkSummaryMessage "This is a summary of the conversation.",
        humanMsg "Message 4" "7", aiMsg "Response 4" "8",
        humanMsg "Latest message" "9"], some demoSummary⟩, []⟩ ∧
    (⟨[mkSummaryMessage "This is a summary of the conversation.",
        humanMsg "Message 4" "7", aiMsg "Response 4" "8",
        humanMsg "Latest message" "9"], some demoSummary⟩ :
        SummarizationResult).messages =
      (sysSplit demoMessages).1 ++ [mkSummaryMessage demoSummary.summary] ++
        tailOf demoMessages none lenCounter 6 ∧
    (mkSummaryMessage demoSummary.summary).content =
      summaryLabel ++ demoSummary.summary :=
  reinvocation_idempotent demoMessages demoModel 6 1
    ⟨[mkSummaryMessage "This is a summary of the conversation.",
      humanMsg "Message 4" "7", aiMsg "Response 4" "8",
      humanMsg "Latest message" "9"], some demoSummary⟩
    demoSummary (by decide) (by decide) (by decide) (by decide)

/-- C2 (amended): the candidate window accumulates token cost against the
full `max_tokens` budget (`max_summary_tokens` is instead reserved against
the retained tail); on the nine-message scenario with `max_tokens = 6`,
`max_summary_tokens = 1` and the `len` counter the window selected for
summarization is exactly the first 6 messages, which become the summarized
ids. -/
theorem cut_rule_scenario :
    windowOf demoMessages none lenCounter 6 =
      takeBudget lenCounter 6 0 demoMessages ∧
    windowOf demoMessages none lenCounter 6 = demoMessages.take 6 ∧
    (summarize_messages demoMessages none demoModel lenCounter 6 1) =
      ⟨Except.ok ⟨[mkSummaryMessage "This is a summary of the conversation.",
          humanMsg "Message 4" "7", aiMsg "Response 4" "8",
          humanMsg "Latest message" "9"],
        some ⟨"This is a summary of the conversation.",
          ({"1", "2", "3", "4", "5", "6"} : Finset String)⟩⟩,
       [demoMessages.take 6 ++ [initialSummaryPrompt]]⟩ := by
  decide

/-- C3: whenever summarization occurs, the output is the leading system
message (if one was present, preserved verbatim at the front), then the
summary rendered as a single system-role message labeled "Summary of the
conversation so far: ...", then all input messages strictly after the window
in their original order (a suffix of the input). -/
theorem output_shape_after_summarization (messages : List Msg)
    (rs : Option RunningSummary) (model : List Msg → String) (tc : List Msg → Nat)
    (maxT maxS : Nat) (r : SummarizationResult)
    (h : (summarize_messages messages rs model tc maxT maxS).outcome = Except.ok r)
    (hw : (sysSplit messages).2.isEmpty = false)
    (htot : ¬ totalOf messages rs tc ≤ maxT) :
    ∃ s : RunningSummary, r.runningSummary = some s ∧
      s.summary.length ≥ 0 ∧
      (mkSummaryMessage s.summary).role = Role.system ∧
      (mkSummaryMessage s.summary).content = summaryLabel ++ s.summary ∧
      r.messages = (sysSplit messages).1 ++ [mkSummaryMessage s.summary] ++
        tailOf messages rs tc maxT ∧
      (∀ m₀ ms, messages = m₀ :: ms → m₀.role = Role.system →
        (sysSplit messages).1 = [m₀]) ∧
      ∃ p, messages = p ++ tailOf messages rs tc maxT := by
  obtain ⟨_, _, hcases⟩ := summarize_ok_cases messages rs model tc maxT maxS r h
  rcases hcases with ⟨hemp, _⟩ | ⟨_, _, hcase⟩
  · rw [hemp] at hw
    cases hw
  · rcases hcase with ⟨hle, _⟩ | ⟨_, _, s, hm, hrs⟩
    · exact absurd hle htot
    · refine ⟨⟨s, priorIds rs ∪ ((windowOf messages rs tc maxT).map mid).toFinset⟩,
        hrs, Nat.zero_le _, rfl, rfl, hm, ?_, tail_suffix_of_input messages rs tc maxT⟩
      intro m₀ ms hmsg hrole
      rw [hmsg]
      unfold sysSplit
      simp [hrole]

/-- Witness for C3: on the nine-message scenario the output is exactly the
labeled summary message followed by the last three original messages. -/
theorem output_shape_after_summarization_witness :
    ∃ s : RunningSummary,
      (⟨[mkSummaryMessage "This is a summary of the conversation.",
          humanMsg "Message 4" "7", aiMsg "Response 4" "8",
          humanMsg "Latest message" "9"],
        some ⟨"This is a summary of the conversation.",
          ({"1", "2", "3", "4", "5", "6"} : Finset String)⟩⟩ :
          SummarizationResult).runningSummary = some s ∧
      s.summary.length ≥ 0 ∧
      (mkSummaryMessage s.summary).role = Role.system ∧
      (mkSummaryMessage s.summary).content = summaryLabel ++ s.summary ∧
      (⟨[mkSummaryMessage "This is a summary of the conversation.",
          humanMsg "Message 4" "7", aiMsg "Response 4" "8",
          humanMsg "Latest message" "9"],
        some ⟨"This is a summary of the conversation.",
          ({"1", "2", "3", "4", "5", "6"} : Finset String)⟩⟩ :
          SummarizationResult).messages =
        (sysSplit demoMessages).1 ++ [mkSummaryMessage s.summary] ++
          tailOf demoMessages none lenCounter 6 ∧
      (∀ m₀ ms, demoMessages = m₀ :: ms → m₀.role = Role.system →
        (sysSplit demoMessages).1 = [m₀]) ∧
      ∃ p, demoMessages = p ++ tailOf demoMessages none lenCounter 6 :=
  output_shape_after_summarization demoMessages none demoModel lenCounter 6 1
    ⟨[mkSummaryMessage "This is a summary of the conversation.",
      humanMsg "Message 4" "7", aiMsg "Response 4" "8",
      humanMsg "Latest message" "9"],
     some ⟨"This is a summary of the conversation.",
       ({"1", "2", "3", "4", "5", "6"} : Finset String)⟩⟩
    (by decide) (by decide) (by decide)

/-- C5: on every successful call the returned state's summarized ids include
the prior state's ids (monotone growth), and on every summarizing call they
equal the union of the prior ids with the ids of the window's messages. -/
theorem summarized_ids_monotone (messages : List Msg) (rs : Option RunningSummary)
    (model : List Msg → String) (tc : List Msg → Nat) (maxT maxS : Nat)
    (r : SummarizationResult)
    (h : (summarize_messages messages rs model tc maxT maxS).outcome = Except.ok r) :
    priorIds rs ⊆ resultIds r ∧
    ((sysSplit messages).2.isEmpty = false → ¬ totalOf messages rs tc ≤ maxT →
      resultIds r = priorIds rs ∪ ((windowOf messages rs tc maxT).map mid).toFinset) := by
  obtain ⟨_, _, hcases⟩ := summarize_ok_cases messages rs model tc maxT maxS r h
  rcases hcases with ⟨hemp, hr⟩ | ⟨_, _, hcase⟩
  · refine ⟨by rw [hr, resultIds_mk], ?_⟩
    intro hwf
    rw [hemp] at hwf
    cases hwf
  · rcases hcase with ⟨hle, hr⟩ | ⟨hgt, _, s, _, hrs⟩
    · refine ⟨by rw [hr, resultIds_mk], ?_⟩
      intro _ htot
      exact absurd hle htot
    · have hres : resultIds r = priorIds rs ∪
          ((windowOf messages rs tc maxT).map mid).toFinset := by
        unfold resultIds
        rw [hrs]
      exact ⟨hres ▸ Finset.subset_union_left, fun _ _ => hres⟩

/-- Witness for C5: on the nine-message scenario the prior (empty) id set is
contained in the result's ids, and the result's ids are exactly the union of
the prior ids with the window's ids. -/
theorem summarized_ids_monotone_witness :
    priorIds none ⊆ resultIds
      ⟨[mkSummaryMessage "This is a summary of the conversation.",
        humanMsg "Message 4" "7", aiMsg "Response 4" "8",
        humanMsg "Latest message" "9"],
       some ⟨"This is a summary of the conversation.",
         ({"1", "2", "3", "4", "5", "6"} : Finset String)⟩⟩ ∧
    ((sysSplit demoMessages).2.isEmpty = false →
      ¬ totalOf demoMessages none lenCounter ≤ 6 →
      resultIds
        ⟨[mkSummaryMessage "This is a summary of the conversation.",
          humanMsg "Message 4" "7", aiMsg "Response 4" "8",
          humanMsg "Latest message" "9"],
         some ⟨"This is a summary of the conversation.",
           ({"1", "2", "3", "4", "5", "6"} : Finset String)⟩⟩ =
        priorIds none ∪
          ((windowOf demoMessages none lenCounter 6).map mid).toFinset) :=
  summarized_ids_monotone demoMessages none demoModel lenCounter 6 1
    ⟨[mkSummaryMessage "This is a summary of the conversation.",
      humanMsg "Message 4" "7", aiMsg "Response 4" "8",
      humanMsg "Latest message" "9"],
     some ⟨"This is a summary of the conversation.",
       ({"1", "2", "3", "4", "5", "6"} : Finset String)⟩⟩
    (by decide)

/-- C7: when the model is invoked, its input is exactly the not-yet-summarized
messages of the window (no window message's id is in the prior summarized
ids) followed by one trailing instruction message — "Create a summary of the
conversation above:" when no prior summary exists, or an instruction
containing the prior summary text and the phrase "Extend this summary" when
one does. -/
theorem model_input_window_instruction (messages : List Msg)
    (rs : Option RunningSummary) (model : List Msg → String) (tc : List Msg → Nat)
    (maxT maxS : Nat)
    (h1 : hasMissingId messages = false) (h2 : ¬ maxT ≤ maxS)
    (h3 : (sysSplit messages).2.isEmpty = false)
    (h4 : findDupId (priorIds rs) (remOf messages rs) = none)
    (h5 : ¬ totalOf messages rs tc ≤ maxT)
    (h6 : ¬ maxT - maxS - tc (sysSplit messages).1 < tc (tailOf messages rs tc maxT))
    (h7 : (windowOf messages rs tc maxT).isEmpty = false) :
    (summarize_messages messages rs model tc maxT maxS).modelCalls =
      [windowOf messages rs tc maxT ++ [promptFor rs]] ∧
    (∀ m ∈ windowOf messages rs tc maxT, mid m ∉ priorIds rs) ∧
    (rs = none → promptFor rs = initialSummaryPrompt ∧
      initialSummaryPrompt.content = "Create a summary of the conversation above:") ∧
    (∀ prior : RunningSummary, rs = some prior →
      (∃ a b, (promptFor rs).content = a ++ prior.summary ++ b) ∧
      (∃ c d, (promptFor rs).content = c ++ "Extend this summary" ++ d)) := by
  have hmem : ∀ m ∈ windowOf messages rs tc maxT, mid m ∉ priorIds rs := by
    intro m hm
    obtain ⟨t, ht⟩ := windowOf_exists_append messages rs tc maxT
    have : m ∈ remOf messages rs := by
      rw [ht]
      exact List.mem_append_left t hm
    exact (findDupId_none_iff (priorIds rs) (remOf messages rs)).mp h4 m this
  match rs with
  | none =>
    rw [summarize_eq_initial messages model tc maxT maxS h1 h2 h3 h4 h5 h6]
    refine ⟨rfl, hmem, fun _ => ⟨rfl, rfl⟩, fun prior hp => Option.noConfusion hp⟩
  | some prior =>
    rw [summarize_eq_extend messages prior model tc maxT maxS h1 h2 h3 h4 h5 h6 h7]
    refine ⟨rfl, hmem, fun hn => Option.noConfusion hn, ?_⟩
    intro prior' hp
    have hp' : prior' = prior := by
      injection hp.symm
    subst hp'
    constructor
    · exact ⟨"This is summary of the conversation to date: ",
        "\n\nExtend this summary by taking into account the new messages above:", rfl⟩
    · refine ⟨"This is summary of the conversation to date: " ++ prior'.summary ++ "\n\n",
        " by taking into account the new messages above:", ?_⟩
      show "This is summary of the conversation to date: " ++ prior'.summary ++
          "\n\nExtend this summary by taking into account the new messages above:" =
        "This is summary of the conversation to date: " ++ prior'.summary ++ "\n\n" ++
          "Extend this summary" ++ " by taking into account the new messages above:"
      have hsplit : "\n\nExtend this summary by taking into account the new messages above:" =
          "\n\n" ++ "Extend this summary" ++ " by taking into account the new messages above:" := by
        decide
      rw [hsplit]
      simp only [String.append_assoc]

/-- Unpack a non-droppable window edge: the message is not human, and if it is
an assistant message all its tool calls are resolved within the window. -/
theorem dropTrailing_eq_false (w : List Msg) (m : Msg)
    (h : dropTrailing w m = false) :
    m.role ≠ Role.human ∧
    (m.role = Role.ai → ∀ c ∈ m.toolCalls, resolvedIn w c.callId = true) := by
  unfold dropTrailing at h
  rw [Bool.or_eq_false_iff] at h
  obtain ⟨h1, h2⟩ := h
  constructor
  · rw [decide_eq_false_iff_not] at h1
    exact h1
  · intro hr c hc
    rw [Bool.and_eq_false_iff] at h2
    rcases h2 with h2 | h2
    · rw [decide_eq_false_iff_not] at h2
      exact absurd hr h2
    · rw [List.any_eq_false] at h2
      have := h2 c hc
      simpa using this

/-- C4: on every summarizing call, the id of the input's last human message is
never among the newly summarized ids (it can only appear in the result's ids
if the caller's prior state already contained it); the window never ends with
a human message nor with an assistant message whose tool calls are unresolved
within the window (so such a trailing pair, with its tool result, lands in the
retained tail); and the output ends with the retained tail, which is a suffix
of the original input. -/
theorem tail_boundary_protection (messages : List Msg) (rs : Option RunningSummary)
    (model : List Msg → String) (tc : List Msg → Nat) (maxT maxS : Nat)
    (r : SummarizationResult)
    (hnodup : (messages.map mid).Nodup)
    (h : (summarize_messages messages rs model tc maxT maxS).outcome = Except.ok r)
    (hw : (sysSplit messages).2.isEmpty = false)
    (htot : ¬ totalOf messages rs tc ≤ maxT) :
    (∀ hm, lastHuman messages = some hm →
      mid hm ∈ resultIds r → mid hm ∈ priorIds rs) ∧
    (∀ m, (windowOf messages rs tc maxT).getLast? = some m →
      m.role ≠ Role.human ∧
      (m.role = Role.ai → ∀ c ∈ m.toolCalls,
        resolvedIn (windowOf messages rs tc maxT) c.callId = true)) ∧
    (∃ p s, messages = p ++ tailOf messages rs tc maxT ∧
      r.messages = (sysSplit messages).1 ++ [mkSummaryMessage s] ++
        tailOf messages rs tc maxT) := by
  obtain ⟨_, _, hcases⟩ := summarize_ok_cases messages rs model tc maxT maxS r h
  rcases hcases with ⟨hemp, _⟩ | ⟨_, _, hcase⟩
  · rw [hemp] at hw
    cases hw
  rcases hcase with ⟨hle, _⟩ | ⟨_, _, s, hmsg, hrs⟩
  · exact absurd hle htot
  refine ⟨?_, ?_, ?_⟩
  · intro hm hlh hmem
    have hres : resultIds r = priorIds rs ∪
        ((windowOf messages rs tc maxT).map mid).toFinset := by
      unfold resultIds
      rw [hrs]
    rw [hres] at hmem
    rcases Finset.mem_union.mp hmem with hmem | hmem
    · exact hmem
    · exact absurd (List.mem_toFinset.mp hmem)
        (lastHuman_not_in_window messages rs tc maxT hnodup hm hlh)
  · intro m hlast
    exact dropTrailing_eq_false _ _ (windowOf_last_ok messages rs tc maxT m hlast)
  · obtain ⟨p, hp⟩ := tail_suffix_of_input messages rs tc maxT
    exact ⟨p, s, hp, hmsg⟩

/-- Witness for C4: on the `test_last_human_message_not_summarized` input the
trailing human/assistant pair is protected — the last human message's id
never enters the summarized ids and the window ends at a safe boundary. -/
theorem tail_boundary_protection_witness :
    (∀ hm, lastHuman tailGuardMessages = some hm →
      mid hm ∈ resultIds ⟨[mkSummaryMessage "This is a summary of the conversation.",
        humanMsg "Message 3" "4", aiMsg "Response 3" "5"],
        some ⟨"This is a summary of the conversation.",
          ({"1", "2", "3"} : Finset String)⟩⟩ →
      mid hm ∈ priorIds none) ∧
    (∀ m, (windowOf tailGuardMessages none lenCounter 4).getLast? = some m →
      m.role ≠ Role.human ∧
      (m.role = Role.ai → ∀ c ∈ m.toolCalls,
        resolvedIn (windowOf tailGuardMessages none lenCounter 4) c.callId = true)) ∧
    (∃ p s, tailGuardMessages = p ++ tailOf tailGuardMessages none lenCounter 4 ∧
      (⟨[mkSummaryMessage "This is a summary of the conversation.",
        humanMsg "Message 3" "4", aiMsg "Response 3" "5"],
        some ⟨"This is a summary of the conversation.",
          ({"1", "2", "3"} : Finset String)⟩⟩ : SummarizationResult).messages =
        (sysSplit tailGuardMessages).1 ++ [mkSummaryMessage s] ++
          tailOf tailGuardMessages none lenCounter 4) :=
  tail_boundary_protection tailGuardMessages none demoModel lenCounter 4 1
    ⟨[mkSummaryMessage "This is a summary of the conversation.",
      humanMsg "Message 3" "4", aiMsg "Response 3" "5"],
     some ⟨"This is a summary of the conversation.",
       ({"1", "2", "3"} : Finset String)⟩⟩
    (by decide) (by decide) (by decide) (by decide)

/-- Witness for C7: on the nine-message scenario the single model call is the
first six messages followed by the fresh-summary instruction. -/
theorem model_input_window_instruction_witness :
    (summarize_messages demoMessages none demoModel lenCounter 6 1).modelCalls =
      [windowOf demoMessages none lenCounter 6 ++ [promptFor none]] ∧
    (∀ m ∈ windowOf demoMessages none lenCounter 6, mid m ∉ priorIds none) ∧
    ((none : Option RunningSummary) = none → promptFor none = initialSummaryPrompt ∧
      initialSummaryPrompt.content = "Create a summary of the conversation above:") ∧
    (∀ prior : RunningSummary, (none : Option RunningSummary) = some prior →
      (∃ a b, (promptFor none).content = a ++ prior.summary ++ b) ∧
      (∃ c d, (promptFor none).content = c ++ "Extend this summary" ++ d)) :=
  model_input_window_instruction demoMessages none demoModel lenCounter 6 1
    (by decide) (by decide) (by decide) (by decide) (by decide) (by decide) (by decide)

end Langmem
